import Mathlib

/-!
Verification of the pixel-jacking pipeline (`cyber_pijack.py`).

The script loads an image, applies an escalating chain of filter effects
`N` times, saves every step, and generates a caption thread. Below is a
shallow embedding of the pieces of the script that the documented
properties talk about: the intensity ramp, the posterization bit depth,
the median-filter kernel size, the per-pixel noise step, the
chromatic-aberration channel offsets, the variant/caption file layout,
and the caption-thread text builder.

Rationals stand in for Python floats, and integers for Python ints.
The unseeded random draws of the noise step are modelled by an explicit
oracle function together with the bound that `random.randint` guarantees.
-/

namespace CyberPijack

/-- Python `int()` on a rational: truncation toward zero. -/
def pyInt (q : ℚ) : ℤ := if 0 ≤ q then ⌊q⌋ else ⌈q⌉

/-- An RGB image: dimensions plus a pixel map giving the (r, g, b)
channel values of the pixel at column `x`, row `y`. -/
structure Image where
  width : Nat
  height : Nat
  pix : Nat → Nat → ℤ × ℤ × ℤ

/-- The per-channel clamp `max(0, min(255, v))` used by the noise step. -/
def clamp255 (v : ℤ) : ℤ := max 0 (min 255 v)

/-- `add_pixel_noise` (cyber_pijack.py, lines 8-17): for every pixel one
value `noise x y` is drawn by `random.randint(-int(intensity*30),
int(intensity*30))` and added to all three channels, each clamped to
[0, 255]. The random source is the explicit oracle `noise`. -/
def add_pixel_noise (img : Image) (intensity : ℚ) (noise : Nat → Nat → ℤ) : Image where
  width := img.width
  height := img.height
  pix := fun x y =>
    (clamp255 ((img.pix x y).1 + noise x y),
     clamp255 ((img.pix x y).2.1 + noise x y),
     clamp255 ((img.pix x y).2.2 + noise x y))

/-- The bound `random.randint(-int(intensity*30), int(intensity*30))`
guarantees for the draws handed to `add_pixel_noise`. -/
def NoiseBounded (intensity : ℚ) (noise : Nat → Nat → ℤ) : Prop :=
  ∀ x y : Nat, -(pyInt (intensity * 30)) ≤ noise x y ∧ noise x y ≤ pyInt (intensity * 30)

/-- `chromatic_aberration` (lines 19-27): the red channel is offset
horizontally by `int(intensity*2)`, the green channel by
`-int(intensity*1)`, the blue channel is untouched, and the channels are
re-merged. `ImageChops.offset` wraps around the edges, hence the `emod`
by the width. -/
def chromatic_aberration (img : Image) (intensity : ℚ) : Image where
  width := img.width
  height := img.height
  pix := fun x y =>
    ((img.pix ((((x : ℤ) - pyInt (intensity * 2)).emod img.width).toNat) y).1,
     (img.pix ((((x : ℤ) + pyInt (intensity * 1)).emod img.width).toNat) y).2.1,
     (img.pix x y).2.2)

/-- The median-filter kernel size computed by `simulate_oil_paint`
(lines 46-50): `raw_size = int(3 + intensity*2)`, bumped to the next
integer when even, then forced up to at least 3. -/
def oil_kernel_size (intensity : ℚ) : ℤ :=
  max 3 (if pyInt (3 + intensity * 2) % 2 = 1
         then pyInt (3 + intensity * 2)
         else pyInt (3 + intensity * 2) + 1)

/-- The intensity computed by `progressive_glitch` (line 70):
`(step / max_steps) * 1.5`. -/
def progressive_glitch_intensity (step max_steps : Nat) : ℚ :=
  ((step : ℚ) / (max_steps : ℚ)) * 1.5

/-- The posterization bit depth of `progressive_glitch` (line 77):
`max(1, 8 - int(intensity * 2))`. -/
def poster_bits (intensity : ℚ) : ℤ := max 1 (8 - pyInt (intensity * 2))

/-- Modelled from the spec words, for comparison with `poster_bits`:
"Posterization with bit depth = max(1, 8 − 2·intensity)". -/
def poster_bits_spec (intensity : ℚ) : ℚ := max 1 (8 - 2 * intensity)

/-- The loop body of `generate_jack_variants` (lines 109-113): starting
from the pristine image, step `i` feeds the previous step through the
pipeline `glitch` (with `max_steps = n`) and records the result. `fuel`
counts the remaining iterations. -/
def jackIter (glitch : Image → Nat → Nat → Image) (n : Nat) :
    Image → Nat → Nat → List Image
  | _, _, 0 => []
  | cur, i, fuel + 1 => glitch cur i n :: jackIter glitch n (glitch cur i n) (i + 1) fuel

/-- The images saved by `generate_jack_variants` (lines 95-116) for a
pipeline `glitch`: the pristine source at index 0, then the cumulative
pipeline outputs of steps `1..n`. -/
def generate_jack_variants_images (glitch : Image → Nat → Nat → Image)
    (src : Image) (n : Nat) : List Image :=
  src :: jackIter glitch n src 1 n

/-- The file name `jack_{i}.png` of the step-`i` variant (lines 103 and
111); the common output directory component is elided. -/
def jack_path (i : Nat) : String := "jack_" ++ toString i ++ ".png"

/-- The ordered list of variant file names written for step count `n`. -/
def variant_paths (n : Nat) : List String := (List.range (n + 1)).map jack_path

/-- The caption file name written by `jack_thread_captions` (line 140). -/
def caption_filename : String := "cyber_jack_thread.txt"

/-- The files a full run writes for step count `n`: the image files from
`generate_jack_variants` and the single caption text file from
`jack_thread_captions`. -/
def run_files (n : Nat) : List String × List String :=
  (variant_paths n, [caption_filename])

/-- The five-entry phrase bank of `jack_thread_captions` (lines 122-128). -/
def effects : List String :=
  ["chromatic fringes tease the blue haze",
   "saturation surges, wires glow faint",
   "watercolor bleeds into tattoo veins",
   "oil strokes slick the cyber storm",
   "emboss relief fractures the sip"]

/-- The phrase used once the phrase bank is exhausted (line 131). -/
def fallback_phrase : String := "matrix meltdown peaks"

/-- The fixed thread header (line 120). -/
def thread_header : String :=
  "ðŸ§µ Cyber Splash Pijack: Neon waifu unravelsâ€”fringes flare, circuits etch, oils drip in the grid. Bench-born glow. #CyberGlitch #NeonArt\n\n"

/-- The fixed thread footer (line 137). -/
def thread_footer : String := "Grid collapse. Which pulse hooks you? Quote to hack. ðŸŒðŸ’¨"

/-- `os.path.basename`: the component after the last slash. -/
def basename (path : String) : String := (path.splitOn "/").getLastD path

/-- The numbering that opens caption paragraph `i` of `total`:
`f"{i}/{total}: Ramp {i}"` (line 131). -/
def cap_lead (i total : Nat) : String :=
  toString i ++ "/" ++ toString total ++ ": Ramp " ++ toString i

/-- The optional watermark append (lines 132-133); Python appends only
when the string is truthy, i.e. present and non-empty. -/
def wm_append (cap : String) (wm : Option String) : String :=
  match wm with
  | some w => if w = "" then cap else cap ++ w ++ " "
  | none => cap

/-- One caption paragraph of `jack_thread_captions` (lines 130-134):
numbering, phrase-bank phrase (or the fallback once the bank is
exhausted), optional watermark, and the file reference. -/
def cap_paragraph (i total : Nat) (path : String) (wm : Option String) : String :=
  wm_append
    (cap_lead i total ++ "â€”" ++
      (if i ≤ effects.length then effects[i - 1]! else fallback_phrase) ++
      ". Portrait pulses. ") wm ++
  "\n[Neon Fracture: " ++ basename path ++ "]\n\n"

/-- The caption paragraphs produced by the loop
`for i, path in enumerate(variants[1:], 1)` (lines 130-135). -/
def caption_paragraphs (variants : List String) (wm : Option String) : List String :=
  (variants.drop 1).enum.map fun p => cap_paragraph (p.1 + 1) (variants.length - 1) p.2 wm

/-- The full thread text of `jack_thread_captions` (lines 118-137):
header, the accumulated paragraphs, footer. -/
def jack_thread (variants : List String) (wm : Option String) : String :=
  (caption_paragraphs variants wm).foldl (· ++ ·) thread_header ++ thread_footer

/-- A channel value within the displayable range [0, 255]. -/
def chanIn255 (c : ℤ) : Prop := 0 ≤ c ∧ c ≤ 255

/-- Channel `c2` is a valid noised version of channel `c`: it is in
[0, 255] and within `bound` of `c`. -/
def chanClose (c c2 : ℤ) (bound : ℚ) : Prop :=
  0 ≤ c2 ∧ c2 ≤ 255 ∧ |((c2 - c : ℤ) : ℚ)| ≤ bound

/-- A small concrete image used to instantiate the general theorems. -/
def demo_image : Image := ⟨2, 1, fun x _ => ((x : ℤ), 100, 200)⟩

/-- A concrete admissible noise oracle at intensity 1. -/
def demo_noise : Nat → Nat → ℤ := fun _ _ => 30

/-- `jackIter` emits one image per unit of fuel. -/
lemma jackIter_length (glitch : Image → Nat → Nat → Image) (n : Nat) :
    ∀ (cur : Image) (i fuel : Nat), (jackIter glitch n cur i fuel).length = fuel := by
  intro cur i fuel
  induction fuel generalizing cur i with
  | zero => rfl
  | succ f ih => simp [jackIter, ih]

/-- Folding string append from a seed is the seed followed by the join. -/
lemma foldl_append_join (l : List String) (s : String) :
    l.foldl (· ++ ·) s = s ++ String.join l := by
  induction l generalizing s with
  | nil => simp [String.join]
  | cons a t ih =>
      have h2 : String.join (a :: t) = a ++ String.join t := by
        have h3 : String.join (a :: t) = List.foldl (· ++ ·) ("" ++ a) t := rfl
        rw [h3, ih]
        simp
      simp only [List.foldl_cons]
      rw [show List.foldl (fun r s => r ++ s) (s ++ a) t = (s ++ a) ++ String.join t from ih _]
      rw [h2, String.append_assoc]

/-- C2: at step `i` of `N ≥ 1` steps, `progressive_glitch` computes the
intensity `(i / N) * 1.5`; the intensity is non-decreasing in the step
index, and at the final step `i = N` it equals its maximum 1.5. -/
theorem intensity_ramp_ok (n i : Nat) (hn : 1 ≤ n) (h1 : 1 ≤ i) (hi : i ≤ n) :
    progressive_glitch_intensity i n = ((i : ℚ) / (n : ℚ)) * 1.5 ∧
    (∀ j : Nat, i ≤ j → progressive_glitch_intensity i n ≤ progressive_glitch_intensity j n) ∧
    progressive_glitch_intensity n n = 1.5 := by
  have hn0 : (0 : ℚ) < (n : ℚ) := by exact_mod_cast hn
  refine ⟨rfl, ?_, ?_⟩
  · intro j hij
    have hc : (i : ℚ) ≤ (j : ℚ) := by exact_mod_cast hij
    have hd := (div_le_div_iff_of_pos_right hn0).mpr hc
    have h15 : (0 : ℚ) ≤ 1.5 := by norm_num
    exact mul_le_mul_of_nonneg_right hd h15
  · unfold progressive_glitch_intensity
    rw [div_self (ne_of_gt hn0), one_mul]

/-- Witness for C2 at `N = 2`, `i = 1`. -/
theorem intensity_ramp_ok_witness :
    progressive_glitch_intensity 1 2 = ((1 : ℚ) / (2 : ℚ)) * 1.5 ∧
    progressive_glitch_intensity 1 2 ≤ progressive_glitch_intensity 2 2 ∧
    progressive_glitch_intensity 2 2 = 1.5 := by
  have h := intensity_ramp_ok 2 1 (by norm_num) (by norm_num) (by norm_num)
  exact ⟨h.1, h.2.1 2 (by norm_num), h.2.2⟩

/-- C4, counterexample: at intensity 0.3 the code computes bit depth 8,
while the spec formula `max(1, 8 − 2·intensity)` gives 7.4. -/
theorem poster_bits_formula_counterexample :
    ((poster_bits (3 / 10) : ℤ) : ℚ) ≠ poster_bits_spec (3 / 10) := by
  have h1 : poster_bits (3 / 10) = 8 := by
    unfold poster_bits pyInt
    rw [if_pos (by norm_num)]
    norm_num
  have h2 : poster_bits_spec (3 / 10) = 37 / 5 := by
    unfold poster_bits_spec
    rw [max_eq_right (by norm_num)]
    norm_num
  rw [h1, h2]
  norm_num

/-- C4, amended: the posterization bit depth is
`max(1, 8 − int(2·intensity))` with Python integer truncation, and in
particular is always at least 1 however large the intensity grows. -/
theorem poster_bits_clamped (intensity : ℚ) (h : 0 ≤ intensity) :
    poster_bits intensity = max 1 (8 - ⌊2 * intensity⌋) ∧ 1 ≤ poster_bits intensity := by
  constructor
  · unfold poster_bits pyInt
    rw [if_pos (by nlinarith), mul_comm]
  · exact le_max_left _ _

/-- Witness for the amended C4 at intensity 100. -/
theorem poster_bits_clamped_witness :
    poster_bits 100 = max 1 (8 - ⌊(2 * 100 : ℚ)⌋) ∧ 1 ≤ poster_bits 100 :=
  poster_bits_clamped 100 (by norm_num)

/-- C6: for any pipeline function, index 0 of the generated variant list
is the source image itself; no filter touches it. -/
theorem step_zero_pristine (glitch : Image → Nat → Nat → Image) (src : Image) (n : Nat) :
    (generate_jack_variants_images glitch src n)[0]? = some src := by
  show (src :: jackIter glitch n src 1 n)[0]? = some src
  simp

/-- C7: for every non-negative intensity, the median-filter kernel size
of `simulate_oil_paint` is odd and at least 3. -/
theorem oil_kernel_odd_ge3 (intensity : ℚ) (h : 0 ≤ intensity) :
    Odd (oil_kernel_size intensity) ∧ 3 ≤ oil_kernel_size intensity := by
  unfold oil_kernel_size
  have hr3 : 3 ≤ pyInt (3 + intensity * 2) := by
    unfold pyInt
    rw [if_pos (by nlinarith)]
    exact Int.le_floor.mpr (by push_cast; nlinarith)
  rcases Int.emod_two_eq (pyInt (3 + intensity * 2)) with h2 | h2
  · rw [if_neg (by omega)]
    exact ⟨by rw [Int.odd_iff, max_eq_right (by omega)]; omega, le_max_left _ _⟩
  · rw [if_pos h2]
    exact ⟨by rw [Int.odd_iff, max_eq_right (by omega)]; omega, le_max_left _ _⟩

/-- Witness for C7 at intensity 1 (kernel size 5). -/
theorem oil_kernel_odd_ge3_witness :
    (0 : ℚ) ≤ 1 ∧ (Odd (oil_kernel_size 1) ∧ 3 ≤ oil_kernel_size 1) :=
  ⟨by norm_num, oil_kernel_odd_ge3 1 (by norm_num)⟩

/-- C9: in the noise step a single draw is shared by all three channels
of a pixel: the output pixel is exactly the input pixel with one common
value added to r, g and b before clamping. -/
theorem noise_single_draw (img : Image) (intensity : ℚ) (noise : Nat → Nat → ℤ)
    (x y : Nat) :
    ∃ nz : ℤ, (add_pixel_noise img intensity noise).pix x y =
      (clamp255 ((img.pix x y).1 + nz),
       clamp255 ((img.pix x y).2.1 + nz),
       clamp255 ((img.pix x y).2.2 + nz)) :=
  ⟨noise x y, rfl⟩

/-- C10: for `0 ≤ intensity < 0.5` both channel offsets of
`chromatic_aberration` truncate to zero, so every pixel (and the image
dimensions) are unchanged. -/
theorem aberration_small_identity (img : Image) (intensity : ℚ) (x y : Nat)
    (h0 : 0 ≤ intensity) (h1 : intensity < 1 / 2) (hx : x < img.width) :
    (chromatic_aberration img intensity).pix x y = img.pix x y ∧
    (chromatic_aberration img intensity).width = img.width ∧
    (chromatic_aberration img intensity).height = img.height := by
  have e2 : pyInt (intensity * 2) = 0 := by
    unfold pyInt
    rw [if_pos (by nlinarith)]
    rw [Int.floor_eq_zero_iff]
    exact ⟨by nlinarith, by nlinarith⟩
  have e1 : pyInt (intensity * 1) = 0 := by
    unfold pyInt
    rw [if_pos (by nlinarith)]
    rw [Int.floor_eq_zero_iff]
    exact ⟨by nlinarith, by nlinarith⟩
  have hxw : ((x : ℤ)).emod img.width = (x : ℤ) :=
    Int.emod_eq_of_lt (by positivity) (by exact_mod_cast hx)
  refine ⟨?_, rfl, rfl⟩
  show ((img.pix ((((x : ℤ) - pyInt (intensity * 2)).emod img.width).toNat) y).1,
        (img.pix ((((x : ℤ) + pyInt (intensity * 1)).emod img.width).toNat) y).2.1,
        (img.pix x y).2.2) = img.pix x y
  rw [e1, e2, sub_zero, add_zero, hxw, Int.toNat_natCast]

/-- Witness for C10: a 2×1 image at intensity 1/4 keeps pixel (1, 0). -/
theorem aberration_small_identity_witness :
    (0 : ℚ) ≤ 1 / 4 ∧
    (chromatic_aberration demo_image (1 / 4)).pix 1 0 = demo_image.pix 1 0 :=
  ⟨by norm_num,
   (aberration_small_identity demo_image (1 / 4) 1 0 (by norm_num) (by norm_num)
     (by norm_num [demo_image])).1⟩

/-- C1: a run with step count `n` produces `n + 1` variant images, the
image files are named by their step index `jack_0.png .. jack_n.png`,
and exactly one caption text file is written. -/
theorem run_produces_files (glitch : Image → Nat → Nat → Image) (src : Image) (n : Nat) :
    (generate_jack_variants_images glitch src n).length = n + 1 ∧
    (run_files n).1.length = n + 1 ∧
    (∀ i : Nat, i ≤ n → (run_files n).1[i]? = some (jack_path i)) ∧
    (run_files n).2.length = 1 := by
  refine ⟨?_, ?_, ?_, rfl⟩
  · show (src :: jackIter glitch n src 1 n).length = n + 1
    simp [jackIter_length]
  · simp [run_files, variant_paths]
  · intro i hi
    show ((List.range (n + 1)).map jack_path)[i]? = some (jack_path i)
    rw [List.getElem?_map, List.getElem?_range (by omega)]
    rfl

/-- Witness for C1 at `n = 2`. -/
theorem run_produces_files_witness :
    (run_files 2).1.length = 2 + 1 ∧
    (run_files 2).1[1]? = some (jack_path 1) ∧
    (run_files 2).2.length = 1 := by
  have h := run_produces_files (fun im _ _ => im) demo_image 2
  exact ⟨h.2.1, h.2.2.1 1 (by norm_num), h.2.2.2⟩

/-- C5: with step count 0 the run yields only the pristine step-0 image,
the single file name `jack_0.png`, no caption paragraphs, and a caption
file that is exactly the header followed by the footer. -/
theorem zero_steps_degenerate (glitch : Image → Nat → Nat → Image) (src : Image)
    (wm : Option String) :
    generate_jack_variants_images glitch src 0 = [src] ∧
    variant_paths 0 = [jack_path 0] ∧
    caption_paragraphs (variant_paths 0) wm = [] ∧
    jack_thread (variant_paths 0) wm = thread_header ++ thread_footer :=
  ⟨rfl, rfl, rfl, rfl⟩

/-- Every clamped perturbation of an in-range channel stays in range and
moves the channel by at most the perturbation bound. -/
lemma clamp255_add_chanClose (c nz m : ℤ) (hc : chanIn255 c) (hlo : -m ≤ nz) (hhi : nz ≤ m)
    (bound : ℚ) (hm : (m : ℚ) ≤ bound) : chanClose c (clamp255 (c + nz)) bound := by
  obtain ⟨hc0, hc255⟩ := hc
  have hZ : 0 ≤ clamp255 (c + nz) ∧ clamp255 (c + nz) ≤ 255 ∧
      -m ≤ clamp255 (c + nz) - c ∧ clamp255 (c + nz) - c ≤ m := by
    simp only [clamp255, max_def, min_def]
    split_ifs <;> omega
  refine ⟨hZ.1, hZ.2.1, ?_⟩
  rw [abs_le]
  constructor
  · have h1 : ((-m : ℤ) : ℚ) ≤ ((clamp255 (c + nz) - c : ℤ) : ℚ) :=
      Int.cast_le.mpr hZ.2.2.1
    push_cast at h1 ⊢
    linarith
  · have h1 : ((clamp255 (c + nz) - c : ℤ) : ℚ) ≤ ((m : ℤ) : ℚ) :=
      Int.cast_le.mpr hZ.2.2.2
    push_cast at h1 ⊢
    linarith

/-- C8: for every image, non-negative intensity and admissible
realization of the random draws, each channel of each pixel after
`add_pixel_noise` is in [0, 255] and differs from the input channel by
at most `30 · intensity`. -/
theorem noise_channels_bounded (img : Image) (intensity : ℚ) (noise : Nat → Nat → ℤ)
    (x y : Nat) (hint : 0 ≤ intensity) (hn : NoiseBounded intensity noise)
    (hpix : chanIn255 (img.pix x y).1 ∧ chanIn255 (img.pix x y).2.1 ∧
      chanIn255 (img.pix x y).2.2) :
    chanClose (img.pix x y).1 ((add_pixel_noise img intensity noise).pix x y).1
      (30 * intensity) ∧
    chanClose (img.pix x y).2.1 ((add_pixel_noise img intensity noise).pix x y).2.1
      (30 * intensity) ∧
    chanClose (img.pix x y).2.2 ((add_pixel_noise img intensity noise).pix x y).2.2
      (30 * intensity) := by
  have hm : ((pyInt (intensity * 30) : ℤ) : ℚ) ≤ 30 * intensity := by
    unfold pyInt
    rw [if_pos (by nlinarith)]
    have := Int.floor_le (intensity * 30)
    linarith
  obtain ⟨hlo, hhi⟩ := hn x y
  exact ⟨clamp255_add_chanClose _ _ _ hpix.1 hlo hhi _ hm,
         clamp255_add_chanClose _ _ _ hpix.2.1 hlo hhi _ hm,
         clamp255_add_chanClose _ _ _ hpix.2.2 hlo hhi _ hm⟩

/-- Witness for C8: the demo image and the constant draw 30 at
intensity 1. -/
theorem noise_channels_bounded_witness :
    chanClose (demo_image.pix 0 0).1 ((add_pixel_noise demo_image 1 demo_noise).pix 0 0).1
      (30 * 1) ∧
    chanClose (demo_image.pix 0 0).2.1 ((add_pixel_noise demo_image 1 demo_noise).pix 0 0).2.1
      (30 * 1) ∧
    chanClose (demo_image.pix 0 0).2.2 ((add_pixel_noise demo_image 1 demo_noise).pix 0 0).2.2
      (30 * 1) := by
  refine noise_channels_bounded demo_image 1 demo_noise 0 0 (by norm_num) ?_ ?_
  · intro a b
    constructor <;> · norm_num [demo_noise, pyInt]
  · norm_num [demo_image, chanIn255]

/-- Element `k` of the caption-paragraph list comes from variant `k+1`. -/
lemma caption_paragraphs_getElem (variants : List String) (wm : Option String) (k : Nat) :
    (caption_paragraphs variants wm)[k]? =
      (variants[k + 1]?).map fun path =>
        cap_paragraph (k + 1) (variants.length - 1) path wm := by
  unfold caption_paragraphs
  rw [List.getElem?_map, List.getElem?_enum, List.getElem?_drop]
  rw [show 1 + k = k + 1 from by omega]
  cases variants[k + 1]? <;> simp

/-- Every caption paragraph splits as numbering, em dash, selected
phrase, and a remainder. -/
lemma cap_paragraph_decomp (i total : Nat) (path : String) (wm : Option String) :
    ∃ rest : List Char, (cap_paragraph i total path wm).data =
      (cap_lead i total).data ++ "â€”".data ++
      (if i ≤ effects.length then effects[i - 1]! else fallback_phrase).data ++ rest := by
  unfold cap_paragraph
  cases wm with
  | none =>
      refine ⟨". Portrait pulses. ".data ++ "\n[Neon Fracture: ".data ++
        (basename path).data ++ "]\n\n".data, ?_⟩
      simp [wm_append, String.data_append, List.append_assoc]
  | some w =>
      by_cases hw : w = ""
      · refine ⟨". Portrait pulses. ".data ++ "\n[Neon Fracture: ".data ++
          (basename path).data ++ "]\n\n".data, ?_⟩
        simp [wm_append, hw, String.data_append, List.append_assoc]
      · refine ⟨". Portrait pulses. ".data ++ w.data ++ " ".data ++
          "\n[Neon Fracture: ".data ++ (basename path).data ++ "]\n\n".data, ?_⟩
        simp [wm_append, hw, String.data_append, List.append_assoc]

/-- C3: for a variant list of length `n + 1`, the caption text holds
exactly `n` numbered paragraphs between the fixed header and the fixed
footer; paragraph `i` opens with its numbering and carries the `i`-th
phrase of the five-entry phrase bank when `i ≤ 5` and the fallback
phrase once the bank is exhausted. -/
theorem caption_thread_ok (variants : List String) (wm : Option String) (n : Nat)
    (hlen : variants.length = n + 1) :
    (caption_paragraphs variants wm).length = n ∧
    jack_thread variants wm =
      thread_header ++ String.join (caption_paragraphs variants wm) ++ thread_footer ∧
    ∀ i : Nat, 1 ≤ i → i ≤ n →
      ((cap_lead i n).data <+: ((caption_paragraphs variants wm)[i - 1]!).data) ∧
      ((if i ≤ 5 then effects[i - 1]! else fallback_phrase).data <:+:
        ((caption_paragraphs variants wm)[i - 1]!).data) := by
  have hplen : (caption_paragraphs variants wm).length = n := by
    unfold caption_paragraphs
    simp [hlen]
  refine ⟨hplen, ?_, ?_⟩
  · unfold jack_thread
    rw [foldl_append_join]
  · intro i h1 hi
    have hvlt : i < variants.length := by omega
    have hv : variants[i]? = some (variants.get ⟨i, hvlt⟩) := by
      rw [List.getElem?_eq_getElem hvlt]
      simp
    have hget : (caption_paragraphs variants wm)[i - 1]? =
        some (cap_paragraph i n (variants.get ⟨i, hvlt⟩) wm) := by
      rw [caption_paragraphs_getElem, show i - 1 + 1 = i from by omega, hv]
      simp [hlen]
    have hbang : (caption_paragraphs variants wm)[i - 1]! =
        cap_paragraph i n (variants.get ⟨i, hvlt⟩) wm := by
      rw [getElem!_pos (caption_paragraphs variants wm) (i - 1) (by omega)]
      rw [List.getElem?_eq_getElem (by omega : i - 1 < (caption_paragraphs variants wm).length)]
        at hget
      exact Option.some.inj hget
    obtain ⟨rest, hdec⟩ := cap_paragraph_decomp i n (variants.get ⟨i, hvlt⟩) wm
    rw [show effects.length = 5 from rfl] at hdec
    rw [hbang, hdec]
    constructor
    · exact ⟨"â€”".data ++ (if i ≤ 5 then effects[i - 1]!
        else fallback_phrase).data ++ rest, by simp [List.append_assoc]⟩
    · exact ⟨(cap_lead i n).data ++ "â€”".data, rest, by simp [List.append_assoc]⟩

/-- Witness for C3: eight variants (seven steps) with a watermark;
paragraph 6 draws on the fallback phrase since the bank holds five. -/
theorem caption_thread_ok_witness :
    (caption_paragraphs (variant_paths 7) (some "TAG")).length = 7 ∧
    ((if 6 ≤ 5 then effects[6 - 1]! else fallback_phrase).data <:+:
      ((caption_paragraphs (variant_paths 7) (some "TAG"))[6 - 1]!).data) := by
  have h := caption_thread_ok (variant_paths 7) (some "TAG") 7 (by rfl)
  exact ⟨h.1, (h.2.2 6 (by norm_num) (by norm_num)).2⟩

end CyberPijack
